import Mathlib

/-!
Verification of the top-workplaces reporting script
(src/server/src/scripts/top-workplaces.ts).

The script fetches two paginated collections (workplaces and shifts) from a
remote API, filters active workplaces (status 0), counts completed shifts
(workerId non-null, cancelledAt null) per active workplace, joins names,
sorts descending by count, truncates to 3 and prints the report.

The shallow embedding below mirrors the source:
  - `Workplace`, `Shift`, `WorkplaceResult`, `PaginatedResponse` are the
    interfaces of the source (the nested `links.next` field is flattened to
    a single `next` field, with the same nullable-string semantics);
  - JavaScript `Map` objects are modelled as insertion-ordered association
    lists (`mapGet`, `mapSet`, `mapHas`: `set` overwrites in place, `get`
    returns the unique binding, iteration order is list order);
  - JavaScript string truthiness (`while (nextUrl)` and `if (name)`) is
    `jsTruthy`: an empty or absent string is falsy;
  - the pagination loop `fetchAllPaginatedData` consumes a stream of page
    responses (`FetchStep.ok`) or request failures (`FetchStep.err`), one
    per request issued; an exhausted stream while the next-link is still
    truthy models a run that keeps requesting (no finite answer: `none`);
  - `Array.prototype.sort`, stable per the ECMAScript specification, with
    comparator `(a, b) => b.shifts - a.shifts`, is `List.mergeSort` on the
    relation `b.shifts ≤ a.shifts`;
  - the top-level `getTopWorkplaces` with `Promise.all`, `console.log`,
    `console.error` and `process.exit(1)` is modelled by `getTopWorkplaces`
    on fetch outcomes, producing a `RunOutput` (stdout payload, whether a
    diagnostic went to stderr, and the exit code).
-/

namespace TopWorkplaces

/-- Source interface Workplace: id, name, status (0 = active). -/
structure Workplace where
  id : Int
  name : String
  status : Int
  deriving DecidableEq, Repr

/-- Source interface Shift: id, workplaceId, nullable workerId, nullable
cancelledAt timestamp. -/
structure Shift where
  id : Int
  workplaceId : Int
  workerId : Option Int
  cancelledAt : Option String
  deriving DecidableEq, Repr

/-- Source interface WorkplaceResult: the report entries. -/
structure WorkplaceResult where
  name : String
  shifts : Nat
  deriving DecidableEq, Repr

/-- Source interface PaginatedResponse: a page of items and the nullable
next-link (the source nests it as links.next). -/
structure PaginatedResponse (T : Type) where
  data : List T
  next : Option String
  deriving DecidableEq, Repr

/-- JavaScript truthiness of a nullable string: null and the empty string
are falsy. Used by the source in `while (nextUrl)` and `if (name)`. -/
def jsTruthy : Option String → Bool
  | none => false
  | some s => s != ""

/-- JS `Map.prototype.get` on the association-list model. -/
def mapGet {K V : Type} [DecidableEq K] : List (K × V) → K → Option V
  | [], _ => none
  | (k, v) :: rest, k₀ => if k = k₀ then some v else mapGet rest k₀

/-- JS `Map.prototype.set`: overwrite in place when the key is present
(keeping its insertion position), append otherwise. -/
def mapSet {K V : Type} [DecidableEq K] : List (K × V) → K → V → List (K × V)
  | [], k₀, v₀ => [(k₀, v₀)]
  | (k, v) :: rest, k₀, v₀ =>
    if k = k₀ then (k, v₀) :: rest else (k, v) :: mapSet rest k₀ v₀

/-- JS `Map.prototype.has`. -/
def mapHas {K V : Type} [DecidableEq K] (m : List (K × V)) (k : K) : Bool :=
  (mapGet m k).isSome

/-- One element of the stream of request outcomes seen by the pagination
loop: a page response, or a failed request (axios throwing). -/
inductive FetchStep (T : Type) where
  | ok (r : PaginatedResponse T)
  | err
  deriving DecidableEq, Repr

/-- The while-loop of fetchAllPaginatedData. `u` is the current `nextUrl`,
`steps` the stream of outcomes of the requests still to be issued, `acc`
the items accumulated so far (`allItems`). Result: `some (.ok l)` when the
loop exits normally returning `l`, `some (.error ())` when a request fails
and the exception propagates (the accumulated items are discarded),
`none` when the stream is exhausted with the next-link still truthy (the
loop would keep issuing requests: no finite normal outcome). -/
def fetchLoop {T : Type} (u : Option String) (steps : List (FetchStep T))
    (acc : List T) : Option (Except Unit (List T)) :=
  if jsTruthy u then
    match steps with
    | [] => none
    | .err :: _ => some (.error ())
    | .ok r :: rest => fetchLoop r.next rest (acc ++ r.data)
  else
    some (.ok acc)

/-- Source fetchAllPaginatedData: run the loop from the initial URL with an
empty accumulator, against a stream of page responses. -/
def fetchAllPaginatedData {T : Type} (initialUrl : Option String)
    (pages : List (PaginatedResponse T)) : Option (Except Unit (List T)) :=
  fetchLoop initialUrl (pages.map FetchStep.ok) []

/-- A well-formed finite pagination chain: from the current next-link `u`,
the listed pages are exactly the ones the loop will request, i.e. every
page before the last is reached through a truthy next-link and the last
page carries a falsy next-link (and when `u` is already falsy there are no
pages at all). -/
def chainOk {T : Type} : Option String → List (PaginatedResponse T) → Bool
  | u, [] => !jsTruthy u
  | u, p :: rest => jsTruthy u && chainOk p.next rest

/-- Body of the for-loop of source step 3: enter the workplace into the
lookup when its status is exactly 0. -/
def activeStep (m : List (Int × String)) (w : Workplace) : List (Int × String) :=
  if w.status = 0 then mapSet m w.id w.name else m

/-- Source step 3: build the id → name lookup of the workplaces whose
status is exactly 0. -/
def activeWorkplaceMap (allWorkplaces : List Workplace) : List (Int × String) :=
  allWorkplaces.foldl activeStep []

/-- Source completion test: workerId assigned and not cancelled. -/
def isCompleted (s : Shift) : Bool :=
  s.workerId.isSome && s.cancelledAt.isNone

/-- Body of the for-loop of source step 4: when the shift is completed and
its workplace is in the active lookup, increment its running count, with
`shiftCounts.get(id) || 0` as the default (0 is falsy in JS, so this is a
default of 0). -/
def countStep (awm : List (Int × String)) (m : List (Int × Nat)) (s : Shift) :
    List (Int × Nat) :=
  if isCompleted s && mapHas awm s.workplaceId then
    let currentCount := (mapGet m s.workplaceId).getD 0
    mapSet m s.workplaceId (currentCount + 1)
  else m

/-- Source step 4: count completed shifts per workplace id present in the
active lookup. -/
def shiftCounts (awm : List (Int × String)) (allShifts : List Shift) :
    List (Int × Nat) :=
  allShifts.foldl (countStep awm) []

/-- Body of the for-loop of source step 5a: resolve the name and push a
record when the name is truthy; `if (name)` is JS truthiness, so an absent
name and an empty name are both skipped. -/
def joinStep (awm : List (Int × String)) (acc : List WorkplaceResult)
    (e : Int × Nat) : List WorkplaceResult :=
  let name := mapGet awm e.1
  if jsTruthy name then acc ++ [{ name := name.getD "", shifts := e.2 }]
  else acc

/-- Source step 5a: join counts with names. -/
def results (awm : List (Int × String)) (sc : List (Int × Nat)) :
    List WorkplaceResult :=
  sc.foldl (joinStep awm) []

/-- The sort comparator `(a, b) => b.shifts - a.shifts` orders `a` before
`b` exactly when `b.shifts ≤ a.shifts`; `Array.prototype.sort` is stable. -/
def shiftsDescLe (a b : WorkplaceResult) : Bool :=
  b.shifts ≤ a.shifts

/-- Source steps 5b and 5c: sort descending by shifts (stable) and slice
the first three entries. This is the report the script prints. -/
def top3Workplaces (allWorkplaces : List Workplace) (allShifts : List Shift) :
    List WorkplaceResult :=
  let awm := activeWorkplaceMap allWorkplaces
  let sc := shiftCounts awm allShifts
  ((results awm sc).mergeSort shiftsDescLe).take 3

/-- Measure used in the statements: the number of shifts of the dataset
that are completed and reference workplace id `i`. -/
def completedShiftCount (allShifts : List Shift) (i : Int) : Nat :=
  (allShifts.filter (fun s => isCompleted s && s.workplaceId = i)).length

/-- Measure used in the statements: the distinct workplace ids whose
active-lookup name is truthy (present and nonempty) and that have at least
one completed shift. -/
def qualifyingIds (allWorkplaces : List Workplace) (allShifts : List Shift) :
    List Int :=
  ((allWorkplaces.map (·.id)).dedup).filter
    (fun i => jsTruthy (mapGet (activeWorkplaceMap allWorkplaces) i)
      && decide (0 < completedShiftCount allShifts i))

/-- Observable outcome of one run of the script process: the report printed
on stdout on success (`none` on failure: nothing is printed there), whether
a diagnostic was written to stderr, and the exit code. -/
structure RunOutput where
  stdoutReport : Option (List WorkplaceResult)
  stderrDiagnostic : Bool
  exitCode : Nat
  deriving DecidableEq, Repr

/-- The top-level getTopWorkplaces: `Promise.all` of the two fetches, then
the pipeline inside try, with the catch printing a diagnostic to stderr and
exiting with code 1. Each argument is the outcome of one fetch (`none` when
that fetch never settles); `Promise.all` rejects as soon as either fetch
raises, so an error on either side reaches the catch block even if the
other fetch never settles, and the run has no outcome (`none`) only when
neither fetch raises and at least one never settles. -/
def getTopWorkplaces (wf : Option (Except Unit (List Workplace)))
    (sf : Option (Except Unit (List Shift))) : Option RunOutput :=
  match wf, sf with
  | some (.error _), _ =>
    some { stdoutReport := none, stderrDiagnostic := true, exitCode := 1 }
  | _, some (.error _) =>
    some { stdoutReport := none, stderrDiagnostic := true, exitCode := 1 }
  | some (.ok ws), some (.ok ss) =>
    some { stdoutReport := some (top3Workplaces ws ss),
           stderrDiagnostic := false, exitCode := 0 }
  | _, _ => none

instance {E A : Type} [DecidableEq E] [DecidableEq A] :
    DecidableEq (Except E A) := fun x y =>
  match x, y with
  | .ok a, .ok b =>
    if h : a = b then isTrue (congrArg Except.ok h)
    else isFalse (fun hc => h (Except.ok.inj hc))
  | .error a, .error b =>
    if h : a = b then isTrue (congrArg Except.error h)
    else isFalse (fun hc => h (Except.error.inj hc))
  | .ok _, .error _ => isFalse (fun hc => Except.noConfusion hc)
  | .error _, .ok _ => isFalse (fun hc => Except.noConfusion hc)

/-- State of one in-flight fetch used to model the concurrency of
`Promise.all`: the fetch is about to request `url` with `steps` the
outcomes of its remaining requests and `acc` the items gathered so far, or
it has settled with result `r`, or its stream is exhausted while the
next-link is still truthy (it will never settle). -/
inductive MState (T : Type) where
  | running (url : String) (steps : List (FetchStep T)) (acc : List T)
  | done (r : Except Unit (List T))
  | stuck
  deriving DecidableEq, Repr

/-- One scheduler step of a fetch: resolve the pending request and either
settle (null next-link or failure) or move on to the next page request.
Settled and stuck states are absorbing. -/
def mstep {T : Type} : MState T → MState T
  | .running _ [] _ => .stuck
  | .running _ (.err :: _) _ => .done (.error ())
  | .running _ (.ok r :: rest) acc =>
    match r.next with
    | some u =>
      if u != "" then .running u rest (acc ++ r.data)
      else .done (.ok (acc ++ r.data))
    | none => .done (.ok (acc ++ r.data))
  | .done r => .done r
  | .stuck => .stuck

/-- Initial machine state of a fetch whose current next-link is `u`: when
`u` is falsy the loop settles immediately with the accumulator. -/
def mInit {T : Type} (u : Option String) (steps : List (FetchStep T))
    (acc : List T) : MState T :=
  match u with
  | some s => if s != "" then .running s steps acc else .done (.ok acc)
  | none => .done (.ok acc)

/-- Observable outcome of a machine state, in the vocabulary of
`fetchLoop`. -/
def mDecode {T : Type} : MState T → Option (Except Unit (List T))
  | .done r => some r
  | _ => none

/-- Interleaved execution of the two concurrent fetches of `Promise.all`:
the schedule says which fetch advances at each point (true = the
workplaces fetch, false = the shifts fetch); the fetches share no state. -/
def run2 (σ : List Bool) (a : MState Workplace) (b : MState Shift) :
    MState Workplace × MState Shift :=
  match σ with
  | [] => (a, b)
  | true :: rest => run2 rest (mstep a) b
  | false :: rest => run2 rest a (mstep b)

/-! Association-list facts about the JS Map model. -/

theorem mapGet_mapSet {K V : Type} [DecidableEq K] (m : List (K × V))
    (k k₀ : K) (v : V) :
    mapGet (mapSet m k v) k₀ = if k = k₀ then some v else mapGet m k₀ := by
  induction m with
  | nil => simp [mapGet, mapSet]
  | cons e rest ih =>
    obtain ⟨ke, ve⟩ := e
    by_cases hke : ke = k
    · subst hke
      by_cases hk0 : ke = k₀ <;> simp [mapGet, mapSet, hk0]
    · by_cases hk0 : ke = k₀
      · subst hk0
        simp [mapGet, mapSet, hke, Ne.symm hke]
      · simp [mapGet, mapSet, hke, hk0, ih]

theorem mapHas_mapSet {K V : Type} [DecidableEq K] (m : List (K × V))
    (k k₀ : K) (v : V) :
    mapHas (mapSet m k v) k₀ = (decide (k = k₀) || mapHas m k₀) := by
  by_cases h : k = k₀ <;> simp [mapHas, mapGet_mapSet, h]

theorem mem_keys_iff_isSome {K V : Type} [DecidableEq K] (m : List (K × V))
    (k : K) : k ∈ m.map Prod.fst ↔ (mapGet m k).isSome := by
  induction m with
  | nil => simp [mapGet]
  | cons e rest ih =>
    obtain ⟨ke, ve⟩ := e
    by_cases h : ke = k
    · subst h
      simp [mapGet]
    · simp [mapGet, h, Ne.symm h, ih]

theorem keys_mapSet {K V : Type} [DecidableEq K] (m : List (K × V))
    (k : K) (v : V) :
    (mapSet m k v).map Prod.fst =
      if (mapGet m k).isSome then m.map Prod.fst
      else m.map Prod.fst ++ [k] := by
  induction m with
  | nil => simp [mapGet, mapSet]
  | cons e rest ih =>
    obtain ⟨ke, ve⟩ := e
    by_cases h : ke = k
    · subst h
      simp [mapGet, mapSet]
    · simp only [mapSet, h, if_false, mapGet, List.map_cons, ih]
      by_cases h2 : (mapGet rest k).isSome <;> simp [h2]

theorem keys_nodup_mapSet {K V : Type} [DecidableEq K] {m : List (K × V)}
    (h : (m.map Prod.fst).Nodup) (k : K) (v : V) :
    ((mapSet m k v).map Prod.fst).Nodup := by
  rw [keys_mapSet]
  by_cases hk : (mapGet m k).isSome
  · simpa [hk]
  · simp only [hk, if_false]
    refine List.Nodup.append h (List.nodup_singleton k) ?_
    intro a ha hb
    simp only [List.mem_singleton] at hb
    subst hb
    exact hk ((mem_keys_iff_isSome m a).mp ha)

/-! Behaviour of the pagination loop. -/

theorem fetchLoop_chain {T : Type} :
    ∀ (pages : List (PaginatedResponse T)) (u : Option String)
      (extra : List (FetchStep T)) (acc : List T),
      chainOk u pages = true →
      fetchLoop u (pages.map FetchStep.ok ++ extra) acc =
        some (.ok (acc ++ (pages.map (·.data)).flatten)) := by
  intro pages
  induction pages with
  | nil =>
    intro u extra acc h
    simp only [chainOk, Bool.not_eq_true'] at h
    rw [fetchLoop.eq_def]
    simp [h]
  | cons p rest ih =>
    intro u extra acc h
    simp only [chainOk, Bool.and_eq_true] at h
    simp only [List.map_cons, List.cons_append, fetchLoop, h.1, if_true,
      List.append_eq]
    rw [ih p.next extra (acc ++ p.data) h.2]
    simp

theorem fetchLoop_no_cap {T : Type} :
    ∀ (pages : List (PaginatedResponse T)) (u : Option String) (acc : List T),
      jsTruthy u = true → (∀ p ∈ pages, jsTruthy p.next = true) →
      fetchLoop u (pages.map FetchStep.ok) acc = none := by
  intro pages
  induction pages with
  | nil =>
    intro u acc hu _
    simp [fetchLoop, hu]
  | cons p rest ih =>
    intro u acc hu hp
    simp only [List.map_cons, fetchLoop, hu, if_true]
    exact ih p.next (acc ++ p.data) (hp p (List.mem_cons_self p rest))
      (fun q hq => hp q (List.mem_cons_of_mem p hq))

theorem fetchLoop_err {T : Type} :
    ∀ (pages : List (PaginatedResponse T)) (u : Option String)
      (extra : List (FetchStep T)) (acc : List T),
      jsTruthy u = true → (∀ p ∈ pages, jsTruthy p.next = true) →
      fetchLoop u (pages.map FetchStep.ok ++ FetchStep.err :: extra) acc =
        some (.error ()) := by
  intro pages
  induction pages with
  | nil =>
    intro u extra acc hu _
    simp [fetchLoop, hu]
  | cons p rest ih =>
    intro u extra acc hu hp
    simp only [List.map_cons, List.cons_append, fetchLoop, hu, if_true]
    exact ih p.next extra (acc ++ p.data) (hp p (List.mem_cons_self p rest))
      (fun q hq => hp q (List.mem_cons_of_mem p hq))

/-- Claim C4: for every finite sequence of page responses forming a chain
whose last next-link is falsy, the paginated fetch returns the flat
concatenation of all pages item lists in page order (any number of pages,
including zero pages when the starting URL is already falsy). -/
theorem claim_C4_fetch_concatenation {T : Type}
    (u : Option String) (pages : List (PaginatedResponse T))
    (h : chainOk u pages = true) :
    fetchAllPaginatedData u pages =
      some (.ok (pages.map (·.data)).flatten) := by
  have := fetchLoop_chain pages u [] [] h
  simpa [fetchAllPaginatedData] using this

/-- Witness for C4 at concrete inputs: a two-page chain concatenates both
pages in order; a one-page chain and a zero-page chain (falsy start URL)
also satisfy the hypothesis. -/
theorem claim_C4_fetch_concatenation_witness :
    chainOk (some "p1")
        [⟨[1, 2], some "p2"⟩, ⟨[3], none⟩] = true ∧
      fetchAllPaginatedData (some "p1")
        [(⟨[1, 2], some "p2"⟩ : PaginatedResponse Nat), ⟨[3], none⟩] =
        some (.ok [1, 2, 3]) ∧
      fetchAllPaginatedData (T := Nat) (some "only") [⟨[7], none⟩] =
        some (.ok [7]) ∧
      fetchAllPaginatedData (T := Nat) none [] = some (.ok []) := by
  refine ⟨by decide, ?_, ?_, ?_⟩
  · exact claim_C4_fetch_concatenation (some "p1")
      [⟨[1, 2], some "p2"⟩, ⟨[3], none⟩] (by decide)
  · exact claim_C4_fetch_concatenation (some "only") [⟨[7], none⟩] (by decide)
  · exact claim_C4_fetch_concatenation none [] (by decide)

/-- Claim C5: when some page of the stream carries a falsy next-link (a
well-formed chain), the loop terminates at that page and issues no request
beyond it — appending further stream elements after the chain changes
nothing; and conversely there is no built-in page cap: as long as the
next-link stays truthy the loop never produces a finite normal outcome on
its own (it consumes the whole stream and keeps asking). -/
theorem claim_C5_fetch_termination {T : Type}
    (u : Option String) (pages : List (PaginatedResponse T))
    (extra : List (FetchStep T)) (acc : List T) :
    (chainOk u pages = true →
      fetchLoop u (pages.map FetchStep.ok ++ extra) acc =
        fetchLoop u (pages.map FetchStep.ok) acc) ∧
    (jsTruthy u = true → (∀ p ∈ pages, jsTruthy p.next = true) →
      fetchLoop u (pages.map FetchStep.ok) acc = none) := by
  constructor
  · intro h
    rw [fetchLoop_chain pages u extra acc h]
    have := fetchLoop_chain pages u [] acc h
    simpa using this.symm
  · intro hu hp
    exact fetchLoop_no_cap pages u acc hu hp

/-- Witness for C5 at concrete inputs: a one-page chain is unaffected by an
extra trailing stream element, and a stream of all-truthy next-links gives
no finite normal outcome. -/
theorem claim_C5_fetch_termination_witness :
    fetchLoop (some "p1")
        ([(⟨[5], none⟩ : PaginatedResponse Nat)].map FetchStep.ok ++
          [FetchStep.err]) [] =
      fetchLoop (some "p1")
        ([(⟨[5], none⟩ : PaginatedResponse Nat)].map FetchStep.ok) [] ∧
    fetchLoop (some "p1")
        ([(⟨[5], some "p2"⟩ : PaginatedResponse Nat)].map FetchStep.ok) [] =
      none := by
  constructor
  · exact (claim_C5_fetch_termination (some "p1") [⟨[5], none⟩]
      [FetchStep.err] []).1 (by decide)
  · exact (claim_C5_fetch_termination (some "p1") [⟨[5], some "p2"⟩]
      [] []).2 (by decide) (by decide)

/-- Claim C6: when a page request fails, the fetch raises instead of
returning the pages already accumulated, and a raised fetch on either side
makes the run print nothing on stdout, emit a diagnostic on stderr and
exit with status 1 — regardless of what the other fetch did. -/
theorem claim_C6_error_handling {T : Type}
    (u : Option String) (pages : List (PaginatedResponse T))
    (extra : List (FetchStep T)) (acc : List T)
    (hu : jsTruthy u = true) (hp : ∀ p ∈ pages, jsTruthy p.next = true) :
    fetchLoop u (pages.map FetchStep.ok ++ FetchStep.err :: extra) acc =
      some (.error ()) ∧
    (∀ wf, getTopWorkplaces wf (some (.error ())) =
      some { stdoutReport := none, stderrDiagnostic := true, exitCode := 1 }) ∧
    (∀ sf, getTopWorkplaces (some (.error ())) sf =
      some { stdoutReport := none, stderrDiagnostic := true, exitCode := 1 }) := by
  refine ⟨fetchLoop_err pages u extra acc hu hp, ?_, ?_⟩
  · intro wf
    rcases wf with _ | wf
    · rfl
    · rcases wf with e | ws <;> rfl
  · intro sf
    rcases sf with _ | sf
    · rfl
    · rcases sf with e | ss <;> rfl

/-- Witness for C6 at concrete inputs: the second page request of a shift
fetch fails after one good page; the accumulated first page is discarded
and the run reports failure. -/
theorem claim_C6_error_handling_witness :
    fetchLoop (some "p1")
        ([(⟨[⟨9, 1, some 5, none⟩], some "p2"⟩ :
            PaginatedResponse Shift)].map FetchStep.ok ++
          FetchStep.err :: []) [] = some (.error ()) ∧
    getTopWorkplaces (some (.ok [])) (some (.error ())) =
      some { stdoutReport := none, stderrDiagnostic := true, exitCode := 1 } := by
  have h := claim_C6_error_handling (some "p1")
    [(⟨[⟨9, 1, some 5, none⟩], some "p2"⟩ : PaginatedResponse Shift)]
    [] [] (by decide) (by decide)
  exact ⟨h.1, h.2.1 (some (.ok []))⟩

/-! Characterisation of the aggregation loop. -/

theorem completedShiftCount_cons (s : Shift) (ss : List Shift) (i : Int) :
    completedShiftCount (s :: ss) i =
      completedShiftCount ss i +
        (if isCompleted s && decide (s.workplaceId = i) then 1 else 0) := by
  by_cases h : (isCompleted s && decide (s.workplaceId = i)) = true
  · simp [completedShiftCount, List.filter_cons, h]
  · simp [completedShiftCount, List.filter_cons, h]

theorem countStep_foldl_get (awm : List (Int × String)) :
    ∀ (ss : List Shift) (m : List (Int × Nat)) (i : Int),
      mapGet (ss.foldl (countStep awm) m) i =
        if mapHas awm i && decide (0 < completedShiftCount ss i) then
          some ((mapGet m i).getD 0 + completedShiftCount ss i)
        else mapGet m i := by
  intro ss
  induction ss with
  | nil =>
    intro m i
    simp [completedShiftCount]
  | cons s ss ih =>
    intro m i
    rw [List.foldl_cons, ih, completedShiftCount_cons]
    by_cases hq : (isCompleted s && mapHas awm s.workplaceId) = true
    · have hstep : countStep awm m s =
          mapSet m s.workplaceId ((mapGet m s.workplaceId).getD 0 + 1) := by
        simp [countStep, hq]
      have hcmp : isCompleted s = true := (Bool.and_eq_true_iff.mp hq).1
      have hh : mapHas awm s.workplaceId = true := (Bool.and_eq_true_iff.mp hq).2
      by_cases hwp : s.workplaceId = i
      · subst hwp
        rw [hstep]
        simp only [mapGet_mapSet, if_pos rfl, Option.getD_some, hh, hcmp,
          Bool.true_and, decide_eq_true_eq, decide_True]
        split_ifs with h1 h2 h3
        all_goals try (exfalso; omega)
        all_goals simp only [Option.getD_some, Option.some_inj]
        all_goals omega
      · rw [hstep]
        have hget : mapGet
            (mapSet m s.workplaceId ((mapGet m s.workplaceId).getD 0 + 1)) i =
            mapGet m i := by
          rw [mapGet_mapSet, if_neg hwp]
        rw [hget]
        simp [hwp]
    · have hstep : countStep awm m s = m := by
        simp only [countStep]
        rw [if_neg]
        exact fun hx => hq hx
      rw [hstep]
      by_cases hadd : (isCompleted s && decide (s.workplaceId = i)) = true
      · have hwp : s.workplaceId = i :=
          of_decide_eq_true (Bool.and_eq_true_iff.mp hadd).2
        have hcmp : isCompleted s = true := (Bool.and_eq_true_iff.mp hadd).1
        have hh : mapHas awm i = false := by
          subst hwp
          cases hx : mapHas awm s.workplaceId
          · rfl
          · exact absurd (by simp [hcmp, hx]) hq
        simp [hadd, hh]
      · simp [hadd]

theorem shiftCounts_get (awm : List (Int × String)) (ss : List Shift)
    (i : Int) :
    mapGet (shiftCounts awm ss) i =
      if mapHas awm i && decide (0 < completedShiftCount ss i) then
        some (completedShiftCount ss i)
      else none := by
  have := countStep_foldl_get awm ss [] i
  simpa [shiftCounts, mapGet] using this

theorem activeStep_foldl_has :
    ∀ (ws : List Workplace) (m : List (Int × String)) (i : Int),
      mapHas (ws.foldl activeStep m) i =
        (ws.any (fun w => decide (w.status = 0) && decide (w.id = i)) ||
          mapHas m i) := by
  intro ws
  induction ws with
  | nil =>
    intro m i
    simp
  | cons w ws ih =>
    intro m i
    rw [List.foldl_cons, ih]
    by_cases hs : w.status = 0
    · by_cases hi : w.id = i <;>
        simp [activeStep, hs, hi, mapHas_mapSet, Bool.or_comm,
          Bool.or_assoc, Bool.or_left_comm]
    · simp [activeStep, hs]

theorem mapHas_activeWorkplaceMap (ws : List Workplace) (i : Int) :
    mapHas (activeWorkplaceMap ws) i = true ↔
      ∃ w ∈ ws, w.status = 0 ∧ w.id = i := by
  rw [activeWorkplaceMap, activeStep_foldl_has ws [] i]
  simp [mapHas, mapGet, List.any_eq_true]

/-- Claim C1: a shift contributes to the count table iff its workerId is
non-null, its cancelledAt is null, and its workplaceId is a key of the
active lookup; each such shift increments exactly the count of its own
workplace id by exactly 1 starting from a default of 0, so the table maps
each id to the exact number of its completed shifts when that number is
positive and the id is active, and holds no binding for it otherwise. -/
theorem claim_C1_counting (awm : List (Int × String)) (ss : List Shift)
    (i : Int) :
    mapGet (shiftCounts awm ss) i =
      if mapHas awm i && decide (0 < completedShiftCount ss i) then
        some (completedShiftCount ss i)
      else none :=
  shiftCounts_get awm ss i

/-- Claim C2: a workplace whose status is never 0 for a given id does not
appear in the active lookup, and that id has no binding in the count table
regardless of its shifts. -/
theorem claim_C2_inactive_excluded (ws : List Workplace) (ss : List Shift)
    (i : Int) (h : ∀ w ∈ ws, w.id = i → w.status ≠ 0) :
    mapGet (activeWorkplaceMap ws) i = none ∧
      mapGet (shiftCounts (activeWorkplaceMap ws) ss) i = none := by
  have hhas : mapHas (activeWorkplaceMap ws) i = false := by
    cases hx : mapHas (activeWorkplaceMap ws) i
    · rfl
    · obtain ⟨w, hw, hst, hid⟩ := (mapHas_activeWorkplaceMap ws i).mp hx
      exact absurd hst (h w hw hid)
  constructor
  · have := hhas
    unfold mapHas at this
    exact Option.not_isSome_iff_eq_none.mp (by simp [this])
  · rw [shiftCounts_get, hhas]
    simp

/-- Witness for C2 at a concrete input: an inactive workplace (status 1)
with a completed shift gets no lookup entry and no count. -/
theorem claim_C2_inactive_excluded_witness :
    mapGet (activeWorkplaceMap [⟨1, "A", 1⟩]) 1 = none ∧
      mapGet (shiftCounts (activeWorkplaceMap [⟨1, "A", 1⟩])
        [⟨10, 1, some 5, none⟩]) 1 = none :=
  claim_C2_inactive_excluded [⟨1, "A", 1⟩] [⟨10, 1, some 5, none⟩] 1
    (by decide)

/-- Claim C7: after the aggregation loop the count table binds an id to a
value exactly when the id belongs to an active workplace and has at least
one completed shift, and the value is then the positive number of its
completed shifts (counted one by one from 0). -/
theorem claim_C7_count_invariant (ws : List Workplace) (ss : List Shift)
    (i : Int) (v : Nat) :
    mapGet (shiftCounts (activeWorkplaceMap ws) ss) i = some v ↔
      ((∃ w ∈ ws, w.status = 0 ∧ w.id = i) ∧
        v = completedShiftCount ss i ∧ 0 < v) := by
  rw [shiftCounts_get]
  by_cases hhas : mapHas (activeWorkplaceMap ws) i = true
  · have hex := (mapHas_activeWorkplaceMap ws i).mp hhas
    simp only [hhas, Bool.true_and, decide_eq_true_eq]
    split_ifs with h0
    · simp only [Option.some_inj]
      constructor
      · intro hv
        exact ⟨hex, hv.symm, hv ▸ h0⟩
      · intro hv
        exact hv.2.1.symm
    · constructor
      · intro hv
        exact absurd hv (by simp)
      · intro hv
        exact absurd (hv.2.1 ▸ hv.2.2) h0
  · have hf : mapHas (activeWorkplaceMap ws) i = false := by
      simpa using hhas
    simp only [hf, Bool.false_and, Bool.false_eq_true, if_false]
    constructor
    · intro hv
      exact absurd hv (by simp)
    · intro hv
      exact absurd ((mapHas_activeWorkplaceMap ws i).mpr hv.1) hhas

/-! Characterisation of the join step. -/

theorem jsTruthy_some_iff (s : String) : jsTruthy (some s) = true ↔ s ≠ "" := by
  simp [jsTruthy]

theorem joinStep_foldl (awm : List (Int × String)) :
    ∀ (sc : List (Int × Nat)) (acc : List WorkplaceResult),
      sc.foldl (joinStep awm) acc =
        acc ++ (sc.filter (fun e => jsTruthy (mapGet awm e.1))).map
          (fun e => { name := (mapGet awm e.1).getD "", shifts := e.2 }) := by
  intro sc
  induction sc with
  | nil =>
    intro acc
    simp
  | cons e sc ih =>
    intro acc
    rw [List.foldl_cons, ih]
    by_cases h : jsTruthy (mapGet awm e.1) = true
    · simp [joinStep, List.filter_cons, h]
    · simp only [Bool.not_eq_true] at h
      simp [joinStep, List.filter_cons, h]

theorem results_eq (awm : List (Int × String)) (sc : List (Int × Nat)) :
    results awm sc =
      (sc.filter (fun e => jsTruthy (mapGet awm e.1))).map
        (fun e => { name := (mapGet awm e.1).getD "", shifts := e.2 }) := by
  have := joinStep_foldl awm sc []
  simpa [results] using this

theorem mem_results_name_ne (awm : List (Int × String)) (sc : List (Int × Nat)) :
    ∀ e ∈ results awm sc, e.name ≠ "" := by
  intro e he
  rw [results_eq] at he
  simp only [List.mem_map, List.mem_filter] at he
  obtain ⟨x, ⟨_, hp⟩, rfl⟩ := he
  cases hg : mapGet awm x.1 with
  | none =>
    rw [hg] at hp
    simp [jsTruthy] at hp
  | some s =>
    rw [hg] at hp
    have hs : s ≠ "" := (jsTruthy_some_iff s).mp hp
    simpa [hg] using hs

/-- Claim C8 counterexample: the join step does not include every pair whose
id the lookup resolves. Here the lookup resolves id 1 (to the empty string)
and the count table binds id 1, yet the join output is empty. -/
theorem claim_C8_counterexample :
    mapGet (activeWorkplaceMap [⟨1, "", 0⟩]) 1 = some "" ∧
      shiftCounts (activeWorkplaceMap [⟨1, "", 0⟩])
        [⟨9, 1, some 5, none⟩] = [(1, 1)] ∧
      results (activeWorkplaceMap [⟨1, "", 0⟩])
        (shiftCounts (activeWorkplaceMap [⟨1, "", 0⟩])
          [⟨9, 1, some 5, none⟩]) = [] := by
  decide

/-- Claim C8 as amended: the join step includes a (id, count) pair as a
{name, shifts} record exactly when the lookup resolves the id to a truthy
(nonempty) name; pairs resolving to nothing or to the empty string are
skipped without an error, and the join step never raises (it is a total
function of its inputs). -/
theorem claim_C8_join_filter (awm : List (Int × String)) (sc : List (Int × Nat)) :
    results awm sc =
      (sc.filter (fun e => jsTruthy (mapGet awm e.1))).map
        (fun e => { name := (mapGet awm e.1).getD "", shifts := e.2 }) :=
  results_eq awm sc

/-- Claim C10: an active workplace whose display name is the empty string
and that has completed shifts is counted in the count table (the lookup
does resolve its id) but omitted from the report: every report entry has a
nonempty name, so none belongs to that workplace. -/
theorem claim_C10_empty_name_omitted (ws : List Workplace) (ss : List Shift)
    (i : Int) (h1 : mapGet (activeWorkplaceMap ws) i = some "")
    (h2 : 0 < completedShiftCount ss i) :
    mapGet (shiftCounts (activeWorkplaceMap ws) ss) i =
      some (completedShiftCount ss i) ∧
    ∀ e ∈ top3Workplaces ws ss, e.name ≠ "" := by
  constructor
  · rw [shiftCounts_get]
    have hhas : mapHas (activeWorkplaceMap ws) i = true := by
      simp [mapHas, h1]
    simp [hhas, h2]
  · intro e he
    have hsort : e ∈ (results (activeWorkplaceMap ws)
        (shiftCounts (activeWorkplaceMap ws) ss)).mergeSort shiftsDescLe := by
      simpa [top3Workplaces] using List.take_subset 3 _ he
    have hres : e ∈ results (activeWorkplaceMap ws)
        (shiftCounts (activeWorkplaceMap ws) ss) :=
      List.mem_mergeSort.mp hsort
    exact mem_results_name_ne _ _ e hres

/-- Witness for C10 at a concrete input: one active workplace named "" with
one completed shift is counted (count 1) and the report is empty. -/
theorem claim_C10_empty_name_omitted_witness :
    mapGet (shiftCounts (activeWorkplaceMap [⟨1, "", 0⟩])
        [⟨9, 1, some 5, none⟩]) 1 =
      some (completedShiftCount [⟨9, 1, some 5, none⟩] 1) ∧
    ∀ e ∈ top3Workplaces [⟨1, "", 0⟩] [⟨9, 1, some 5, none⟩], e.name ≠ "" :=
  claim_C10_empty_name_omitted [⟨1, "", 0⟩] [⟨9, 1, some 5, none⟩] 1
    (by decide) (by decide)

/-! Size and order of the report. -/

theorem jsTruthy_isSome {o : Option String} (h : jsTruthy o = true) :
    o.isSome = true := by
  cases o <;> simp_all [jsTruthy]

theorem shiftCounts_isSome_iff (awm : List (Int × String)) (ss : List Shift)
    (i : Int) :
    (mapGet (shiftCounts awm ss) i).isSome = true ↔
      (mapHas awm i = true ∧ 0 < completedShiftCount ss i) := by
  rw [shiftCounts_get]
  split_ifs with h
  · simp only [Option.isSome_some, true_iff]
    exact ⟨(Bool.and_eq_true_iff.mp h).1,
      of_decide_eq_true (Bool.and_eq_true_iff.mp h).2⟩
  · simp only [Option.isSome_none, Bool.false_eq_true, false_iff]
    rintro ⟨h1, h2⟩
    exact h (by simp [h1, h2])

theorem shiftCounts_keys_nodup (awm : List (Int × String)) (ss : List Shift) :
    ((shiftCounts awm ss).map Prod.fst).Nodup := by
  suffices h : ∀ (ss : List Shift) (m : List (Int × Nat)),
      (m.map Prod.fst).Nodup →
      ((ss.foldl (countStep awm) m).map Prod.fst).Nodup by
    exact h ss [] (by simp)
  intro ss
  induction ss with
  | nil =>
    intro m hm
    simpa using hm
  | cons s ss ih =>
    intro m hm
    rw [List.foldl_cons]
    apply ih
    by_cases h : (isCompleted s && mapHas awm s.workplaceId) = true
    · simp only [countStep, h, if_true]
      exact keys_nodup_mapSet hm _ _
    · simp only [countStep]
      rw [if_neg h]
      exact hm

theorem mem_qualifyingIds_iff (ws : List Workplace) (ss : List Shift)
    (i : Int) :
    i ∈ qualifyingIds ws ss ↔
      (jsTruthy (mapGet (activeWorkplaceMap ws) i) = true ∧
        0 < completedShiftCount ss i) := by
  unfold qualifyingIds
  simp only [List.mem_filter, List.mem_dedup, Bool.and_eq_true,
    decide_eq_true_eq]
  constructor
  · rintro ⟨_, h1, h2⟩
    exact ⟨h1, h2⟩
  · rintro ⟨h1, h2⟩
    refine ⟨?_, h1, h2⟩
    have hhas : mapHas (activeWorkplaceMap ws) i = true := jsTruthy_isSome h1
    obtain ⟨w, hw, _, hid⟩ := (mapHas_activeWorkplaceMap ws i).mp hhas
    exact List.mem_map.mpr ⟨w, hw, hid⟩

theorem mem_counted_keys_iff (ws : List Workplace) (ss : List Shift)
    (i : Int) :
    i ∈ (((shiftCounts (activeWorkplaceMap ws) ss).filter
        (fun e => jsTruthy (mapGet (activeWorkplaceMap ws) e.1))).map
          Prod.fst) ↔
      (jsTruthy (mapGet (activeWorkplaceMap ws) i) = true ∧
        0 < completedShiftCount ss i) := by
  simp only [List.mem_map, List.mem_filter]
  constructor
  · rintro ⟨e, ⟨hmem, hp⟩, he⟩
    subst he
    refine ⟨hp, ?_⟩
    have hkey : e.1 ∈ (shiftCounts (activeWorkplaceMap ws) ss).map Prod.fst :=
      List.mem_map_of_mem Prod.fst hmem
    have hsome := (mem_keys_iff_isSome _ e.1).mp hkey
    exact ((shiftCounts_isSome_iff _ ss e.1).mp hsome).2
  · rintro ⟨h1, h2⟩
    have hhas : mapHas (activeWorkplaceMap ws) i = true := jsTruthy_isSome h1
    have hsome := (shiftCounts_isSome_iff (activeWorkplaceMap ws) ss i).mpr
      ⟨hhas, h2⟩
    have hkey := (mem_keys_iff_isSome
      (shiftCounts (activeWorkplaceMap ws) ss) i).mpr hsome
    obtain ⟨e, hmem, he⟩ := List.mem_map.mp hkey
    exact ⟨e, ⟨hmem, by rw [he]; exact h1⟩, he⟩

theorem results_length_eq (ws : List Workplace) (ss : List Shift) :
    (results (activeWorkplaceMap ws)
      (shiftCounts (activeWorkplaceMap ws) ss)).length =
      (qualifyingIds ws ss).length := by
  rw [results_eq, List.length_map,
    ← List.length_map ((shiftCounts (activeWorkplaceMap ws) ss).filter
      (fun e => jsTruthy (mapGet (activeWorkplaceMap ws) e.1))) Prod.fst]
  apply List.Perm.length_eq
  have hnd1 : ((((shiftCounts (activeWorkplaceMap ws) ss)).filter
      (fun e => jsTruthy (mapGet (activeWorkplaceMap ws) e.1))).map
        Prod.fst).Nodup :=
    (shiftCounts_keys_nodup (activeWorkplaceMap ws) ss).sublist
      ((List.filter_sublist _).map Prod.fst)
  have hnd2 : (qualifyingIds ws ss).Nodup :=
    (List.nodup_dedup _).filter _
  rw [List.perm_ext_iff_of_nodup hnd1 hnd2]
  intro a
  rw [mem_counted_keys_iff ws ss a, mem_qualifyingIds_iff ws ss a]

theorem shiftsDescLe_trans (a b c : WorkplaceResult)
    (hab : shiftsDescLe a b) (hbc : shiftsDescLe b c) : shiftsDescLe a c := by
  simp only [shiftsDescLe, decide_eq_true_eq] at *
  omega

theorem shiftsDescLe_total (a b : WorkplaceResult) :
    shiftsDescLe a b || shiftsDescLe b a := by
  simp only [shiftsDescLe, Bool.or_eq_true, decide_eq_true_eq]
  omega

/-- Claim C3 counterexample: exactly one active workplace has at least one
completed shift (fewer than 3), yet the report has zero entries, because
that workplace has an empty display name and the join skips it. -/
theorem claim_C3_counterexample :
    (([⟨1, "", 0⟩] : List Workplace).filter
        (fun w => decide (w.status = 0) &&
          decide (0 < completedShiftCount [⟨9, 1, some 5, none⟩] w.id))).length
      = 1 ∧
    top3Workplaces [⟨1, "", 0⟩] [⟨9, 1, some 5, none⟩] = [] := by
  constructor
  · decide
  · have hres : results (activeWorkplaceMap [⟨1, "", 0⟩])
        (shiftCounts (activeWorkplaceMap [⟨1, "", 0⟩])
          [⟨9, 1, some 5, none⟩]) = [] := by
      decide
    simp [top3Workplaces, hres, List.mergeSort_nil]

/-- Claim C3 as amended: the report has at most 3 entries, they are sorted
by shifts in non-increasing order, and the number of entries is exactly
min(3, number of distinct workplace ids whose active-lookup name is truthy
(present and nonempty) and that have at least one completed shift) — so
when fewer than 3 such workplaces exist the report has exactly that many
entries, but an active workplace whose display name is the empty string is
not one of them even if it has completed shifts. -/
theorem claim_C3_report_shape (ws : List Workplace) (ss : List Shift) :
    (top3Workplaces ws ss).length ≤ 3 ∧
    List.Pairwise (fun a b : WorkplaceResult => b.shifts ≤ a.shifts)
      (top3Workplaces ws ss) ∧
    (top3Workplaces ws ss).length = min 3 (qualifyingIds ws ss).length := by
  have hlen : (top3Workplaces ws ss).length =
      min 3 (qualifyingIds ws ss).length := by
    simp only [top3Workplaces]
    rw [List.length_take, List.length_mergeSort, results_length_eq]
  refine ⟨?_, ?_, hlen⟩
  · rw [hlen]
    exact Nat.min_le_left _ _
  · have hs := @List.sorted_mergeSort WorkplaceResult shiftsDescLe
      shiftsDescLe_trans shiftsDescLe_total
      (results (activeWorkplaceMap ws) (shiftCounts (activeWorkplaceMap ws) ss))
    have hs2 : List.Pairwise (fun a b : WorkplaceResult => b.shifts ≤ a.shifts)
        ((results (activeWorkplaceMap ws)
          (shiftCounts (activeWorkplaceMap ws) ss)).mergeSort shiftsDescLe) :=
      hs.imp (fun h => by simpa [shiftsDescLe] using h)
    simp only [top3Workplaces]
    exact List.Pairwise.sublist (List.take_sublist 3 _) hs2

/-! Determinism of the run under fetch interleaving. -/

theorem iterate_mstep_done {T : Type} (n : Nat) (r : Except Unit (List T)) :
    mstep^[n] (MState.done r) = MState.done r := by
  induction n with
  | zero => rfl
  | succ n ih => rw [Function.iterate_succ_apply, mstep, ih]

theorem mstep_running_ok {T : Type} (s : String) (r : PaginatedResponse T)
    (rest : List (FetchStep T)) (acc : List T) :
    mstep (MState.running s (FetchStep.ok r :: rest) acc) =
      mInit r.next rest (acc ++ r.data) := by
  cases hn : r.next with
  | none => simp [mstep, mInit, hn]
  | some u => simp [mstep, mInit, hn]

theorem fetchLoop_eq_iterate {T : Type} :
    ∀ (steps : List (FetchStep T)) (u : Option String) (acc : List T),
      fetchLoop u steps acc =
        mDecode (mstep^[steps.length + 1] (mInit u steps acc)) := by
  intro steps
  induction steps with
  | nil =>
    intro u acc
    cases u with
    | none => simp [fetchLoop, jsTruthy, mInit, mDecode, mstep,
        iterate_mstep_done]
    | some s =>
      by_cases hs : s = ""
      · subst hs
        simp [fetchLoop, jsTruthy, mInit, mDecode, mstep, iterate_mstep_done]
      · have ht : jsTruthy (some s) = true := by simp [jsTruthy, hs]
        have hbne : (s != "") = true := by simp [hs]
        simp [fetchLoop, ht, mInit, hbne, mstep, mDecode]
  | cons st rest ih =>
    intro u acc
    cases u with
    | none =>
      rw [fetchLoop.eq_def]
      simp [jsTruthy, mInit, mDecode, mstep, iterate_mstep_done]
    | some s =>
      by_cases hs : s = ""
      · subst hs
        rw [fetchLoop.eq_def]
        simp [jsTruthy, mInit, mDecode, mstep, iterate_mstep_done]
      · have ht : jsTruthy (some s) = true := by simp [jsTruthy, hs]
        have hbne : (s != "") = true := by simp [hs]
        have h2 : mInit (some s) (st :: rest) acc =
            MState.running s (st :: rest) acc := by
          simp [mInit, hbne]
        cases st with
        | err =>
          have h1 : fetchLoop (some s) (FetchStep.err :: rest) acc =
              some (.error ()) := by
            simp [fetchLoop, ht]
          rw [h1, h2, List.length_cons, Function.iterate_succ_apply]
          rw [show mstep (MState.running s (FetchStep.err :: rest) acc) =
            MState.done (.error ()) from rfl]
          rw [iterate_mstep_done]
          rfl
        | ok r =>
          have h1 : fetchLoop (some s) (FetchStep.ok r :: rest) acc =
              fetchLoop r.next rest (acc ++ r.data) := by
            simp [fetchLoop, ht]
          rw [h1, h2, List.length_cons]
          conv_rhs => rw [Function.iterate_succ_apply, mstep_running_ok]
          exact ih r.next (acc ++ r.data)

theorem mstep_iterate_done_unique {T : Type} {a : MState T} {m n : Nat}
    {r r' : Except Unit (List T)} (hm : mstep^[m] a = MState.done r)
    (hn : mstep^[n] a = MState.done r') : r = r' := by
  rcases Nat.le_total m n with h | h
  · have heq : mstep^[n] a = MState.done r := by
      rw [← Nat.sub_add_cancel h, Function.iterate_add_apply, hm,
        iterate_mstep_done]
    rw [heq] at hn
    exact MState.done.inj hn
  · have heq : mstep^[m] a = MState.done r' := by
      rw [← Nat.sub_add_cancel h, Function.iterate_add_apply, hn,
        iterate_mstep_done]
    rw [heq] at hm
    exact (MState.done.inj hm).symm

theorem run2_eq_iterate :
    ∀ (σ : List Bool) (a : MState Workplace) (b : MState Shift),
      run2 σ a b = (mstep^[σ.count true] a, mstep^[σ.count false] b) := by
  intro σ
  induction σ with
  | nil =>
    intro a b
    simp [run2]
  | cons t rest ih =>
    intro a b
    cases t
    · rw [show run2 (false :: rest) a b = run2 rest a (mstep b) from rfl, ih]
      simp [List.count_cons, Function.iterate_succ_apply]
    · rw [show run2 (true :: rest) a b = run2 rest (mstep a) b from rfl, ih]
      simp [List.count_cons, Function.iterate_succ_apply]

/-- Claim C9: when both fetches complete under two schedules of the
concurrent execution, the settled values agree, so the run output — and
hence any serialization of the report — is bit-identical, independent of
the relative completion order of the two fetches. -/
theorem claim_C9_schedule_independence (σ σ' : List Bool)
    (a : MState Workplace) (b : MState Shift)
    (ra ra' : Except Unit (List Workplace)) (rb rb' : Except Unit (List Shift))
    (h : run2 σ a b = (MState.done ra, MState.done rb))
    (h' : run2 σ' a b = (MState.done ra', MState.done rb')) :
    ra = ra' ∧ rb = rb' ∧
      ∀ render : Option RunOutput → String,
        render (getTopWorkplaces (some ra) (some rb)) =
          render (getTopWorkplaces (some ra') (some rb')) := by
  rw [run2_eq_iterate] at h h'
  rw [Prod.ext_iff] at h h'
  have hra : ra = ra' := mstep_iterate_done_unique h.1 h'.1
  have hrb : rb = rb' := mstep_iterate_done_unique h.2 h'.2
  subst hra
  subst hrb
  exact ⟨rfl, rfl, fun _ => rfl⟩

/-- Witness for C9 at concrete inputs: two schedules that advance the two
fetches in opposite orders settle on the same values, and a concrete
serialization of the run output agrees. -/
theorem claim_C9_schedule_independence_witness :
    (Except.ok [⟨1, "A", 0⟩] : Except Unit (List Workplace)) = .ok [⟨1, "A", 0⟩] ∧
    (Except.ok [] : Except Unit (List Shift)) = .ok [] ∧
    ∀ render : Option RunOutput → String,
      render (getTopWorkplaces (some (.ok [⟨1, "A", 0⟩])) (some (.ok []))) =
        render (getTopWorkplaces (some (.ok [⟨1, "A", 0⟩])) (some (.ok []))) :=
  claim_C9_schedule_independence [true, false] [false, true]
    (mInit (some "w") [FetchStep.ok ⟨[⟨1, "A", 0⟩], none⟩] [])
    (mInit (some "s") [FetchStep.ok ⟨[], none⟩] [])
    (.ok [⟨1, "A", 0⟩]) (.ok [⟨1, "A", 0⟩]) (.ok []) (.ok [])
    (by decide) (by decide)

end TopWorkplaces
